import Mathlib

/-!
Verification development for the DownloadManager repository.

The file shallowly embeds the parts of `download_manager/download_manager.py`
and `download_manager/utils.py` that the checked properties concern:

* `safe_download_file` / `download_process_insert` at attempt granularity
  (each call to `download_file` is one attempt whose outcome is given by an
  oracle `att : Nat → Attempt`);
* the staging/commit protocol of `download_file` + `os.replace` at
  filesystem-event granularity (a trace of write/replace steps);
* the candidate filtering of `DownloadManager.download_files`;
* the future-resolution loop of the pooled execution path;
* the window validation of `download_files` / `calculate_monthly_filenames` /
  `calculate_filenames_for_range` (timestamps modelled as hours since an
  epoch, matching pandas Timestamp ordering at hour granularity);
* path conversion in `calculate_filenames_for_range.convert_paths`
  (paths modelled as strings, `pathlib.Path.relative_to` modelled
  segment-wise, raising ValueError on a non-subpath and TypeError on a
  `None` root, as in CPython);
* `utils.ArrayParser`.
-/

/-! ### Attempt-level model of `safe_download_file` -/

/-- Outcome of one call to `download_file` followed by `os.replace`
(one iteration body of the retry loop): either it succeeds, or it raises an
exception whose `str(e)` is `msg`. -/
inductive Attempt where
  | ok : Attempt
  | err (msg : String) : Attempt
deriving DecidableEq, Repr

/-- How a call to `safe_download_file` terminates: `retTrue`/`retFalse` are
the explicit `return True` / `return False`, `retNone` is the implicit
`None` returned when the `for` loop falls through, and the `raise*`
constructors are the raised exception types. -/
inductive SdlOutcome where
  | retTrue : SdlOutcome
  | retFalse : SdlOutcome
  | retNone : SdlOutcome
  | raiseFileExists : SdlOutcome
  | raiseFileNotFound : SdlOutcome
  | raiseMaxTrial : SdlOutcome
deriving DecidableEq, Repr

/-- The 404 test of `safe_download_file`:
`(str(e) == 'HTTP Error 404 Not Found') or (str(e) == 'HTTP Error 404: Not Found')`. -/
def is404 (msg : String) : Bool :=
  msg == "HTTP Error 404 Not Found" || msg == "HTTP Error 404: Not Found"

/-- The `for trial in range(max_trial)` loop of `safe_download_file`.
`trial` is the Python loop variable; `remaining` counts the iterations the
`range` still yields (callers keep `trial + remaining = maxTrial`).
Returns (outcome, number of download attempts made, number of 5-second
sleeps performed).  The inner `trial < maxTrial` test is kept verbatim from
the source. -/
def sdlLoop (maxTrial : Nat) (http404Ok : Bool) (att : Nat → Attempt) :
    Nat → Nat → SdlOutcome × Nat × Nat
  | _, 0 => (.retNone, 0, 0)
  | trial, remaining + 1 =>
    match att trial with
    | .ok => (.retTrue, 1, 0)
    | .err msg =>
      if is404 msg then
        if http404Ok then (.retFalse, 1, 0) else (.raiseFileNotFound, 1, 0)
      else
        if trial < maxTrial then
          let r := sdlLoop maxTrial http404Ok att (trial + 1) remaining
          (r.1, r.2.1 + 1, r.2.2 + 1)
        else (.raiseMaxTrial, 1, 0)

/-- `safe_download_file(source, dest, credentials, max_trial, http_404_ok, exist_ok)`.
`destExists` is the value of `os.path.exists(dest_filename)` at entry;
`att trial` is the outcome of the download attempt made at loop index
`trial`.  Returns (outcome, attempts made, sleeps performed). -/
def safe_download_file (destExists existOk : Bool) (maxTrial : Nat)
    (http404Ok : Bool) (att : Nat → Attempt) : SdlOutcome × Nat × Nat :=
  if destExists then
    if !existOk then (.raiseFileExists, 0, 0) else (.retFalse, 0, 0)
  else
    sdlLoop maxTrial http404Ok att 0 maxTrial

/-- Which side effects `download_process_insert` performed. -/
structure DpiEff where
  mkdirCalled : Bool
  callbackCalled : Bool
  insertCalled : Bool
deriving DecidableEq, Repr

/-- `download_process_insert(args)`: makes the staging directory, calls
`safe_download_file(..., max_trial=5, http_404_ok=True, exist_ok=False)`,
and only when the returned flag is truthy (`return True`) runs the callback
and then `sql.safe_insert`.  `cb`/`ins` model whether the callback /
insert raise; a raised exception propagates out as `.error`. -/
def download_process_insert (destExists : Bool) (att : Nat → Attempt)
    (cb ins : Except String Unit) : Except String DpiEff :=
  match safe_download_file destExists false 5 true att with
  | (.retTrue, _, _) =>
    match cb with
    | .error e => .error e
    | .ok _ =>
      match ins with
      | .error e => .error e
      | .ok _ => .ok ⟨true, true, true⟩
  | (.retFalse, _, _) => .ok ⟨true, false, false⟩
  | (.retNone, _, _) => .ok ⟨true, false, false⟩
  | (.raiseFileExists, _, _) => .error "FileExistsError"
  | (.raiseFileNotFound, _, _) => .error "FileNotFoundError"
  | (.raiseMaxTrial, _, _) => .error "MaximumTrialExceededError"

/-! ### Filesystem-event model of the staging/commit protocol -/

/-- A primitive filesystem event performed while `safe_download_file`
runs: `write n s` is a write leaving the file `n` with byte size `s`
(opening with mode `wb` counts as `write n 0`), and `replace src dst` is
`os.replace(src, dst)`. -/
inductive Step where
  | write (name : String) (size : Nat) : Step
  | replace (src dst : String) : Step
deriving DecidableEq, Repr

/-- A filesystem: maps a filename to its byte size when the file exists. -/
def FS : Type := String → Option Nat

/-- Effect of one event on the filesystem. -/
def applyStep (fs : FS) : Step → FS
  | .write n s => fun m => if m = n then some s else fs m
  | .replace a b => fun m => if m = b then fs a else if m = a then none else fs m

/-- Effect of a sequence of events. -/
def applySteps (fs : FS) (l : List Step) : FS :=
  l.foldl applyStep fs

/-- The staging name used by `safe_download_file`:
`f"{dest_filename}.partial_"`. -/
def stagingName (dest : String) : String :=
  dest ++ ".partial_"

/-- Filesystem events of one iteration of the retry loop
(`download_file(source, dest + ".partial_")` then, on success,
`os.replace`).  `sizes` lists the cumulative on-disk size of the staging
file after each write the attempt performed (empty when the attempt failed
before creating the file); `declared` is the Content-Length the remote
source reported before the transfer.  `download_file` returns normally —
and the commit rename runs — exactly when the file exists and
`os.stat(...).st_size == declared`. -/
def attemptTrace (dest : String) (declared : Nat) (sizes : List Nat) : List Step :=
  sizes.map (fun s => Step.write (stagingName dest) s) ++
    (if sizes.getLast? = some declared
      then [Step.replace (stagingName dest) dest] else [])

/-- Filesystem events of a whole `safe_download_file` call: the loop walks
through the per-attempt write lists until the first attempt whose final
size matches `declared` (that attempt ends with the commit rename and the
function returns). -/
def safeDlTrace (dest : String) (declared : Nat) : List (List Nat) → List Step
  | [] => []
  | sizes :: rest =>
    if sizes.getLast? = some declared then attemptTrace dest declared sizes
    else attemptTrace dest declared sizes ++ safeDlTrace dest declared rest

/-! ### Candidate filtering in `DownloadManager.download_files` -/

/-- `itertools.compress(data, selectors)`. -/
def compress {α : Type} (data : List α) (selectors : List Bool) : List α :=
  ((data.zip selectors).filter (fun p => p.2)).map (fun p => p.1)

/-- The dedup-filter stage of `download_files`: computes
`dne = [not sql.exists(db, 'file', 'source_filename', src) for (db, src) in zip(dbs, srcs)]`,
compresses the four parallel lists by it, and returns the filtered
quadruple together with the logged count `len(source_filenames)` and the
early-return flag `sum(dne) == 0`.  `dbEx db src` models
`sql.exists(db_filename=db, table='file', attr='source_filename', val=src)`. -/
def download_files_filter (dbEx : String → String → Bool)
    (srcs bufs locs dbs : List String) :
    (List String × List String × List String × List String) × Nat × Bool :=
  let dne := (dbs.zip srcs).map (fun p => !dbEx p.1 p.2)
  let s := compress srcs dne
  let b := compress bufs dne
  let l := compress locs dne
  let d := compress dbs dne
  ((s, b, l, d), s.length, dne.count true = 0)

/-! ### The pooled future-resolution loop -/

/-- The log line `f"Error occurred while processing {source_filename}.\n{get_exception_text(e)}"`. -/
def errLog (src msg : String) : String :=
  "Error occurred while processing " ++ src ++ ".\n" ++ msg

/-- The loop `for future, source_filename in zip(futures, source_filenames)`:
each `future.result()` either returns (`.ok`) or raises (`.error`), and the
`try/except` catches every exception, appending a log entry; the loop never
re-raises and always runs to the end of the list.  Returns the list of
error-log entries in iteration order. -/
def resolve_loop {β : Type} : List (Except String β × String) → List String
  | [] => []
  | (.ok _, _) :: rest => resolve_loop rest
  | (.error e, src) :: rest => errLog src e :: resolve_loop rest

/-- One work item of the pooled path: its source filename, the state of
the world its worker sees (destination existence, per-attempt download
outcomes, callback and insert behavior). -/
structure WorkItem where
  src : String
  destExists : Bool
  att : Nat → Attempt
  cb : Except String Unit
  ins : Except String Unit

/-- The worker body submitted to the pool. -/
def worker (w : WorkItem) : Except String DpiEff :=
  download_process_insert w.destExists w.att w.cb w.ins

/-- The pooled path of `download_files`: submit `download_process_insert`
for every item, then resolve the futures zipped with the source filenames
in submission order. -/
def pooled_run (items : List WorkItem) : List String :=
  resolve_loop ((items.map worker).zip (items.map (fun w => w.src)))

/-! ### Window validation in `download_files` and its helpers

Timestamps are modelled as hours since the start of year 0 (proleptic
Gregorian), which preserves the ordering and hour arithmetic that
`download_files`, `calculate_monthly_filenames` and
`calculate_filenames_for_range` perform on `pd.Timestamp` values. -/

/-- Gregorian leap-year test. -/
def isLeap (y : Nat) : Bool :=
  (y % 4 = 0 && y % 100 ≠ 0) || y % 400 = 0

/-- Days in a month (m between 1 and 12). -/
def daysInMonth (y m : Nat) : Nat :=
  if m = 2 then (if isLeap y then 29 else 28)
  else if m = 4 || m = 6 || m = 9 || m = 11 then 30
  else 31

/-- Days from the epoch to January 1st of year `y`. -/
def daysBeforeYear (y : Nat) : Nat :=
  365 * y + ((List.range y).filter (fun k => isLeap k)).length

/-- Days from January 1st of year `y` to the first of month `m`. -/
def daysBeforeMonth (y m : Nat) : Nat :=
  ((List.range (m - 1)).map (fun k => daysInMonth y (k + 1))).sum

/-- `pd.Timestamp(year=y, month=m, day=1, hour=0)` in epoch hours:
the window start used by `calculate_monthly_filenames`. -/
def monthStart (y m : Nat) : Int :=
  24 * (daysBeforeYear y + daysBeforeMonth y m)

/-- `start + MonthEnd(0) + Timedelta(hours=23)`: the last day of the month
at 23:00, the unclipped window end of `calculate_monthly_filenames`. -/
def monthEnd23 (y m : Nat) : Int :=
  monthStart y m + 24 * (daysInMonth y m - 1 : Nat) + 23

/-- The guard at the top of `calculate_filenames_for_range`:
`if start >= end: raise ValueError(...)`; on success the planner is invoked
on the window (modelled by returning the window itself).  All errors in
this model are ValueError, carrying the message. -/
def calcRangeWindow (start stop : Int) : Except String (Int × Int) :=
  if start ≥ stop then .error "start cannot be after end."
  else .ok (start, stop)

/-- `calculate_monthly_filenames(year, month)`: builds the calendar-month
window, rejects a month starting after `utcnow` (the current UTC time
floored to the hour), and clips the window end with `min(utcnow, end)`. -/
def calculate_monthly_filenames (year month : Nat) (utcnow : Int) :
    Except String (Int × Int) :=
  let start := monthStart year month
  let stop := monthEnd23 year month
  if start > utcnow then .error "Cannot calculate filenames for future month."
  else calcRangeWindow start (min utcnow stop)

/-- `calculate_latest_filenames(backfill_hours)`. -/
def calculate_latest_filenames (backfillHours : Nat) (utcnow : Int) :
    Except String (Int × Int) :=
  calcRangeWindow (utcnow - backfillHours) utcnow

/-- The run modes of `download_files`. -/
inductive Mode where
  | latest : Mode
  | monthly : Mode
  | range : Mode
deriving DecidableEq, Repr

/-- The argument-validation and window-computation prefix of
`download_files`: the `if mode == ...` cascade with its
missing-argument `ValueError`s, delegating to the three
`calculate_*_filenames` helpers.  Everything after this (database
initialization, filtering, dispatch) runs only on `.ok`. -/
def download_files_window (mode : Mode) (year month backfillHours : Option Nat)
    (start stop : Option Int) (utcnow : Int) : Except String (Int × Int) :=
  match mode with
  | .latest =>
    match backfillHours with
    | none => .error "If mode=latest, arg backfill_hours must be specified."
    | some b => calculate_latest_filenames b utcnow
  | .monthly =>
    match year with
    | none => .error "If mode=monthly, arg year must be specified"
    | some y =>
      match month with
      | none => .error "If mode=monthly, arg month must be specified"
      | some m => calculate_monthly_filenames y m utcnow
  | .range =>
    match start with
    | none => .error "If mode=range, arg start must be specified"
    | some s =>
      match stop with
      | none => .error "If mode=range, arg end must be specified"
      | some e => calcRangeWindow s e

/-! ### Path conversion in `calculate_filenames_for_range` -/

/-- The two exception kinds `convert_paths` can produce. -/
inductive PyErr where
  | valueError (msg : String) : PyErr
  | typeError (msg : String) : PyErr
deriving DecidableEq, Repr

/-- Split a character list at `/`. -/
def splitSlash : List Char → List (List Char)
  | [] => [[]]
  | c :: cs =>
    if c = '/' then [] :: splitSlash cs
    else
      match splitSlash cs with
      | [] => [[c]]
      | s :: rest => (c :: s) :: rest

/-- Path segments: split on `/` and drop empty components (pathlib
normalizes repeated and trailing separators). -/
def segs (p : String) : List (List Char) :=
  (splitSlash p.data).filter (fun s => s ≠ [])

/-- `Path(p).is_absolute()` for POSIX paths. -/
def isAbs (p : String) : Bool :=
  p.data.head? = some '/'

/-- `Path(p).relative_to(root)` succeeds exactly when both paths have the
same anchor and `root`'s segments are a prefix of `p`'s; otherwise it
raises ValueError. -/
def isSubpath (p root : String) : Bool :=
  (isAbs p == isAbs root) && (segs root).isPrefixOf (segs p)

/-- `f"{x}"` for an optional string (Python formats `None` as `"None"`). -/
def pyFormat : Option String → String
  | none => "None"
  | some s => s

/-- One iteration of the loop in `convert_paths`: `None` is kept; an
absolute path is checked with `Path(p).relative_to(relative_to)` — which
raises TypeError when `relative_to` is `None` and ValueError when `p` is
not under it — and appended unchanged (the explicit `raise` guarded by
`if not Path(p).relative_to(...)` is dead code because `Path` objects are
always truthy); a relative path is appended as `f"{relative_to}/{p}"`. -/
def convert_one (relativeTo : Option String) : Option String → Except PyErr (Option String)
  | none => .ok none
  | some p =>
    if isAbs p then
      match relativeTo with
      | none => .error (.typeError "argument should be a str or an os.PathLike object, not NoneType")
      | some root =>
        if isSubpath p root then .ok (some p)
        else .error (.valueError "path is not in the subpath of the root")
    else .ok (some (pyFormat relativeTo ++ "/" ++ p))

/-- `convert_paths(paths, varname, relative_to)`: processes the list left
to right, propagating the first raised exception. -/
def convert_paths (relativeTo : Option String) :
    List (Option String) → Except PyErr (List (Option String))
  | [] => .ok []
  | p :: rest =>
    match convert_one relativeTo p with
    | .error e => .error e
    | .ok q =>
      match convert_paths relativeTo rest with
      | .error e => .error e
      | .ok qs => .ok (q :: qs)

/-- The path-handling part of `calculate_filenames_for_range` (the
`start >= end` guard is modelled by `calcRangeWindow` above): converts the
three path lists against their designated roots, then — when
`self.buffer_dir is None` — requires every converted buffer filename to be
`None`. -/
def calculate_filenames_for_range (bufferDir : Option String) (dataDir databaseDir : String)
    (srcs : List String) (bufs locs dbs : List (Option String)) :
    Except PyErr (List String × List (Option String) × List (Option String) × List (Option String)) := do
  let bufs' ← convert_paths bufferDir bufs
  let locs' ← convert_paths (some dataDir) locs
  let dbs' ← convert_paths (some databaseDir) dbs
  if bufferDir = none ∧ ¬ (bufs'.all (fun f => f = none)) then
    .error (.valueError "Expected all None for buffer_filenames with buffer_dir=None.")
  else
    .ok (srcs, bufs', locs', dbs')

/-! ### `utils.ArrayParser` -/

/-- Prepend each element of `xs` to every tuple of `ts`, keeping `ts`
order within a fixed head (so later axes vary faster). -/
def prodCons {α : Type} : List α → List (List α) → List (List α)
  | [], _ => []
  | x :: xs, ts => ts.map (fun t => x :: t) ++ prodCons xs ts

/-- `list(itertools.product(*lists))`: the first list is the outermost
loop, the last list varies fastest. -/
def pyProduct {α : Type} : List (List α) → List (List α)
  | [] => [[]]
  | xs :: rest => prodCons xs (pyProduct rest)

/-- Python list indexing `l[i]` with negative indices counting from the
end; out-of-range indices give `none` (IndexError). -/
def pyIdx {α : Type} (l : List α) (i : Int) : Option α :=
  if i < 0 then
    if 0 ≤ (l.length : Int) + i then l.get? ((l.length : Int) + i).toNat else none
  else l.get? i.toNat

/-- `ArrayParser.__init__(**kwargs)` state: `products`, `keys`, `Ns`
(named `_Ns` in the source). -/
structure ArrayParser (α : Type) where
  products : List (List α)
  keys : List String
  Ns : List Nat

/-- Build an `ArrayParser` from the ordered keyword mapping. -/
def ArrayParser.ofKwargs {α : Type} (kwargs : List (String × List α)) : ArrayParser α :=
  { products := pyProduct (kwargs.map (fun q => q.2))
    keys := kwargs.map (fun q => q.1)
    Ns := kwargs.map (fun q => q.2.length) }

/-- `len(self) = np.prod(self._Ns)`. -/
def ArrayParser.len {α : Type} (p : ArrayParser α) : Nat :=
  p.Ns.prod

/-- `unpack(i) = {k: v for k, v in zip(self.keys, self.products[i])}`,
the mapping modelled as an ordered association list; `none` models the
IndexError on an out-of-range `i`. -/
def ArrayParser.unpack {α : Type} (p : ArrayParser α) (i : Int) :
    Option (List (String × α)) :=
  (pyIdx p.products i).map (fun t => p.keys.zip t)

/-- `__call__(i)` and the non-slice branch of `__getitem__(i)`. -/
def ArrayParser.call {α : Type} (p : ArrayParser α) (i : Int) :
    Option (List (String × α)) :=
  p.unpack i

/-- `range(start, stop, step)` over Python ints: for a positive step the
values `start, start + step, ...` below `stop`; for a negative step the
values above `stop`.  (`range` raises ValueError on step 0; the model
returns `[]` there and no statement in this file concerns that case.) -/
def pyRangeInt (start stop step : Int) : List Int :=
  if 0 < step then
    (List.range (((stop - start).toNat + step.toNat - 1) / step.toNat)).map
      (fun k : Nat => start + step * k)
  else if step < 0 then
    (List.range (((start - stop).toNat + (-step).toNat - 1) / (-step).toNat)).map
      (fun k : Nat => start + step * k)
  else []

/-- The slice branch of `__getitem__`:
`start = i.start if i.start is not None else 0`,
`stop = i.stop if i.stop is not None else len(self)`,
`step = i.step if i.step is not None else 1`, then
`[self.unpack(i) for i in range(start, stop, step)]` — the raw
(possibly negative or out-of-range) bounds go straight into `range`, and
each produced integer straight into `unpack`.  An out-of-range index
makes the comprehension raise IndexError in Python; in this model the
corresponding entry is `none` (the first such entry marks the raise
point). -/
def ArrayParser.sliceGet {α : Type} (p : ArrayParser α) (start stop step : Option Int) :
    List (Option (List (String × α))) :=
  (pyRangeInt (start.getD 0) (stop.getD (p.len : Int)) (step.getD 1)).map
    (fun i : Int => p.unpack i)

/-- `__iter__`: `for i in range(len(self)): yield self.unpack(i)`. -/
def ArrayParser.iterList {α : Type} (p : ArrayParser α) :
    List (Option (List (String × α))) :=
  (List.range p.len).map (fun i : Nat => p.unpack (i : Int))

/-! ## Theorems -/

/-- Whenever the loop has at least one iteration left, at least one
download attempt is made. -/
theorem sdlLoop_attempts_pos (mt : Nat) (ok : Bool) (att : Nat → Attempt)
    (trial rem : Nat) (h : 1 ≤ rem) : 1 ≤ (sdlLoop mt ok att trial rem).2.1 := by
  cases rem with
  | zero => omega
  | succ k =>
    simp only [sdlLoop]
    cases att trial with
    | ok => simp
    | err msg =>
      cases h404 : is404 msg <;> simp [h404] <;> split <;> simp

/-- All-transient loop: if every attempt in the window fails with a
non-404 error, the loop runs all `rem` remaining iterations, makes `rem`
attempts, sleeps `rem` times, and falls through returning `None`. -/
theorem sdlLoop_all_transient (mt : Nat) (ok : Bool) (att : Nat → Attempt)
    (trial rem : Nat) (hinv : trial + rem = mt)
    (hfail : ∀ t, trial ≤ t → t < mt →
      ∃ msg, att t = .err msg ∧ is404 msg = false) :
    sdlLoop mt ok att trial rem = (.retNone, rem, rem) := by
  induction rem generalizing trial with
  | zero => simp [sdlLoop]
  | succ k ih =>
    obtain ⟨msg, hmsg, h404⟩ := hfail trial (le_refl _) (by omega)
    have htr : trial < mt := by omega
    have ihr := ih (trial + 1) (by omega)
      (fun t ht1 ht2 => hfail t (by omega) ht2)
    simp [sdlLoop, hmsg, h404, htr, ihr]

/-- C1 (code bug).  With the default `max_trial=5` and every attempt
failing with a transient (non-404) error, `safe_download_file` makes
exactly 5 attempts and sleeps 5 seconds after each failure — but because
the guard `trial < max_trial` is always true inside
`for trial in range(max_trial)`, the `raise MaximumTrialExceededError`
branch is unreachable: the loop falls through and the function returns
`None`.  `download_process_insert` then treats the falsy flag as a
non-download: no callback call and no index insert — and no error is
raised at all. -/
theorem c1_exhausted_retries_return_none :
    safe_download_file false false 5 true (fun _ => .err "urlopen error timed out")
      = (.retNone, 5, 5) ∧
    (safe_download_file false false 5 true (fun _ => .err "urlopen error timed out")).1
      ≠ .raiseMaxTrial ∧
    download_process_insert false (fun _ => .err "urlopen error timed out")
      (.ok ()) (.ok ()) = .ok ⟨true, false, false⟩ := by
  refine ⟨by decide, by decide, rfl⟩

/-- C6.  If the destination file already exists, `safe_download_file`
with `exist_ok=False` (the default) raises `FileExistsError` before any
download attempt (zero attempts, zero sleeps, no retry), and with
`exist_ok=True` it returns `False` having made zero download attempts, so
an existing destination is never overwritten. -/
theorem c6_existing_destination (mt : Nat) (ok404 : Bool) (att : Nat → Attempt) :
    safe_download_file true false mt ok404 att = (.raiseFileExists, 0, 0) ∧
    safe_download_file true true mt ok404 att = (.retFalse, 0, 0) := by
  exact ⟨rfl, rfl⟩

/-- C3.  When the first attempt raises a 404 error: with
`http_404_ok=True` the function returns `False` after exactly one attempt,
with no sleep, no retry and no exception, and `download_process_insert`
(which passes `http_404_ok=True`) performs neither the callback nor the
index insert; with `http_404_ok=False` it raises `FileNotFoundError`
immediately after that single attempt, again with no retry. -/
theorem c3_http404_skip (msg : String) (att : Nat → Attempt) (mt : Nat)
    (cb ins : Except String Unit)
    (hatt : att 0 = .err msg) (h404 : is404 msg = true) (hmt : 0 < mt) :
    safe_download_file false false mt true att = (.retFalse, 1, 0) ∧
    safe_download_file false false mt false att = (.raiseFileNotFound, 1, 0) ∧
    download_process_insert false att cb ins = .ok ⟨true, false, false⟩ := by
  have key : ∀ ok : Bool, sdlLoop mt ok att 0 mt
      = (if ok then .retFalse else .raiseFileNotFound, 1, 0) := by
    intro ok
    cases mt with
    | zero => omega
    | succ k => cases ok <;> simp [sdlLoop, hatt, h404]
  constructor
  · simpa [safe_download_file] using key true
  constructor
  · simpa [safe_download_file] using key false
  · simp only [download_process_insert]
    rw [show safe_download_file false false 5 true att = (.retFalse, 1, 0) from by
      simp only [safe_download_file, Bool.not_false, if_false]
      simp [sdlLoop, hatt, h404]]

/-- Witness for `c3_http404_skip` at a concrete input. -/
theorem c3_http404_skip_witness :
    ((fun _ => Attempt.err "HTTP Error 404: Not Found") 0
        = Attempt.err "HTTP Error 404: Not Found") ∧
    is404 "HTTP Error 404: Not Found" = true ∧ 0 < 5 ∧
    (safe_download_file false false 5 true (fun _ => .err "HTTP Error 404: Not Found")
        = (.retFalse, 1, 0) ∧
      safe_download_file false false 5 false (fun _ => .err "HTTP Error 404: Not Found")
        = (.raiseFileNotFound, 1, 0) ∧
      download_process_insert false (fun _ => .err "HTTP Error 404: Not Found")
        (.ok ()) (.ok ()) = .ok ⟨true, false, false⟩) :=
  ⟨rfl, by decide, by decide,
    c3_http404_skip "HTTP Error 404: Not Found" _ 5 (.ok ()) (.ok ())
      rfl (by decide) (by decide)⟩

/-- C10.  `safe_download_file` classifies a caught exception as a 404
(NotFound) exactly when its text is `"HTTP Error 404 Not Found"` or
`"HTTP Error 404: Not Found"`; an error attempt with any other message is
treated as transient: with at least two trials available the function goes
on to make a second attempt rather than skipping. -/
theorem c10_404_classification (msg : String) :
    (is404 msg = true ↔
      (msg = "HTTP Error 404 Not Found" ∨ msg = "HTTP Error 404: Not Found")) ∧
    (∀ (att : Nat → Attempt) (mt : Nat) (ok404 : Bool),
      att 0 = .err msg → is404 msg = false → 2 ≤ mt →
      2 ≤ (safe_download_file false false mt ok404 att).2.1) := by
  constructor
  · simp [is404]
  · intro att mt ok404 hatt h404 hmt
    cases mt with
    | zero => omega
    | succ k =>
      cases k with
      | zero => omega
      | succ k' =>
        have hpos := sdlLoop_attempts_pos (k' + 1 + 1) ok404 att 1 (k' + 1) (by omega)
        have hlt : 0 < k' + 1 + 1 := by omega
        have hgoal : (safe_download_file false false (k' + 1 + 1) ok404 att).2.1
            = (sdlLoop (k' + 1 + 1) ok404 att 1 (k' + 1)).2.1 + 1 := by
          simp [safe_download_file, sdlLoop, hatt, h404, hlt]
        omega

/-- Witness for `c10_404_classification` at a concrete input. -/
theorem c10_404_classification_witness :
    (is404 "HTTP Error 500: Internal Server Error" = true ↔
      ("HTTP Error 500: Internal Server Error" = "HTTP Error 404 Not Found" ∨
        "HTTP Error 500: Internal Server Error" = "HTTP Error 404: Not Found")) ∧
    ((fun _ => Attempt.err "HTTP Error 500: Internal Server Error") 0
      = Attempt.err "HTTP Error 500: Internal Server Error") ∧
    is404 "HTTP Error 500: Internal Server Error" = false ∧ (2 : Nat) ≤ 5 ∧
    2 ≤ (safe_download_file false false 5 true
      (fun _ => .err "HTTP Error 500: Internal Server Error")).2.1 :=
  ⟨(c10_404_classification "HTTP Error 500: Internal Server Error").1,
    rfl, by decide, by decide,
    (c10_404_classification "HTTP Error 500: Internal Server Error").2
      (fun _ => .err "HTTP Error 500: Internal Server Error") 5 true
      rfl (by decide) (by decide)⟩

/-- The staging name differs from the destination name. -/
theorem stagingName_ne (d : String) : stagingName d ≠ d := by
  intro h
  have hlen := congrArg String.length h
  have h9 : (".partial_" : String).length = 9 := rfl
  rw [stagingName, String.length_append, h9] at hlen
  omega

/-- A prefix of a concatenation is a prefix of the left part, or the left
part followed by a prefix of the right part. -/
theorem prefix_append_cases {α : Type} {p l₁ l₂ : List α} (h : p <+: l₁ ++ l₂) :
    p <+: l₁ ∨ ∃ r, p = l₁ ++ r ∧ r <+: l₂ := by
  have hp := List.prefix_iff_eq_take.mp h
  rw [List.take_append_eq_append_take] at hp
  by_cases hle : p.length ≤ l₁.length
  · left
    have h0 : p.length - l₁.length = 0 := by omega
    rw [h0, List.take_zero, List.append_nil] at hp
    rw [hp]
    exact List.take_prefix _ _
  · right
    refine ⟨l₂.take (p.length - l₁.length), ?_, List.take_prefix _ _⟩
    rwa [List.take_of_length_le (by omega)] at hp

/-- A prefix of a one-element list is empty or that list. -/
theorem prefix_singleton {α : Type} {r : List α} {x : α} (h : r <+: [x]) :
    r = [] ∨ r = [x] := by
  cases r with
  | nil => exact Or.inl rfl
  | cons a as =>
    rw [List.cons_prefix_cons] at h
    obtain ⟨rfl, has⟩ := h
    right
    rw [List.eq_nil_of_prefix_nil has]

/-- A run of writes to a single name leaves every other name unchanged. -/
theorem applySteps_writes_only (w : String) :
    ∀ (p : List Step) (fs : FS), (∀ s ∈ p, ∃ k, s = Step.write w k) →
      ∀ n, n ≠ w → applySteps fs p n = fs n := by
  intro p
  induction p with
  | nil => intro fs _ n _; rfl
  | cons s rest ih =>
    intro fs hall n hn
    obtain ⟨k, rfl⟩ := hall s (List.mem_cons_self s rest)
    have hrest := ih (applyStep fs (.write w k))
      (fun t ht => hall t (List.mem_cons_of_mem _ ht)) n hn
    show applySteps fs (Step.write w k :: rest) n = fs n
    rw [applySteps, List.foldl_cons]
    rw [show (rest.foldl applyStep (applyStep fs (.write w k))) n
        = applySteps (applyStep fs (.write w k)) rest n from rfl, hrest]
    simp [applyStep, hn]

/-- `(l.map f).getLast? = (l.getLast?).map f`. -/
theorem getLast?_map_eq {α β : Type} (f : α → β) (l : List α) :
    (l.map f).getLast? = (l.getLast?).map f := by
  induction l with
  | nil => rfl
  | cons a l ih =>
    cases l with
    | nil => rfl
    | cons b l => simpa [List.getLast?_cons_cons] using ih

/-- Shape of every prefix of the event trace of `safe_download_file`:
either it consists solely of writes to the staging name, or it ends at
the commit rename, which is immediately preceded by a write leaving the
staging file at exactly the declared size. -/
theorem safeDlTrace_prefix_shape (d : String) (D : Nat) (atts : List (List Nat)) :
    ∀ p, p <+: safeDlTrace d D atts →
      (∀ s ∈ p, ∃ k, s = Step.write (stagingName d) k) ∨
      (∃ w, p = w ++ [Step.replace (stagingName d) d] ∧
        (∀ s ∈ w, ∃ k, s = Step.write (stagingName d) k) ∧
        w.getLast? = some (Step.write (stagingName d) D)) := by
  induction atts with
  | nil =>
    intro p hp
    rw [safeDlTrace] at hp
    rw [List.eq_nil_of_prefix_nil hp]
    exact Or.inl (by simp)
  | cons a rest ih =>
    intro p hp
    rw [safeDlTrace] at hp
    by_cases hsucc : a.getLast? = some D
    · rw [if_pos hsucc, attemptTrace, if_pos hsucc] at hp
      rcases prefix_append_cases hp with hleft | ⟨r, rfl, hr⟩
      · left
        intro s hs
        have := hleft.subset hs
        simp only [List.mem_map] at this
        obtain ⟨k, _, rfl⟩ := this
        exact ⟨k, rfl⟩
      · rcases prefix_singleton hr with rfl | rfl
        · left
          intro s hs
          simp only [List.append_nil, List.mem_map] at hs
          obtain ⟨k, _, rfl⟩ := hs
          exact ⟨k, rfl⟩
        · right
          refine ⟨a.map (fun s => Step.write (stagingName d) s), rfl, ?_, ?_⟩
          · intro s hs
            simp only [List.mem_map] at hs
            obtain ⟨k, _, rfl⟩ := hs
            exact ⟨k, rfl⟩
          · rw [getLast?_map_eq, hsucc]
            rfl
    · rw [if_neg hsucc, attemptTrace, if_neg hsucc, List.append_nil] at hp
      rcases prefix_append_cases hp with hleft | ⟨r, rfl, hr⟩
      · left
        intro s hs
        have := hleft.subset hs
        simp only [List.mem_map] at this
        obtain ⟨k, _, rfl⟩ := this
        exact ⟨k, rfl⟩
      · rcases ih r hr with hall | ⟨w, rfl, hw, hlast⟩
        · left
          intro s hs
          rcases List.mem_append.mp hs with hs | hs
          · simp only [List.mem_map] at hs
            obtain ⟨k, _, rfl⟩ := hs
            exact ⟨k, rfl⟩
          · exact hall s hs
        · right
          refine ⟨a.map (fun s => Step.write (stagingName d) s) ++ w, by rw [List.append_assoc], ?_, ?_⟩
          · intro s hs
            rcases List.mem_append.mp hs with hs | hs
            · simp only [List.mem_map] at hs
              obtain ⟨k, _, rfl⟩ := hs
              exact ⟨k, rfl⟩
            · exact hw s hs
          · rw [List.getLast?_append_of_ne_nil _ (by
              intro hnil
              rw [hnil] at hlast
              exact Option.noConfusion hlast)]
            exact hlast

/-- C2.  Atomicity of the commit protocol: every filesystem event of a
`safe_download_file` execution writes to the staging name
(`dest + ".partial_"`) or is the single commit rename; along any prefix
of the execution in which the commit rename has not yet happened the
destination name does not exist and no file other than the staging file
has been touched; and whenever the commit rename occurs it is immediately
preceded by a write that left the staging file at exactly the byte size
the remote source declared before transfer. -/
theorem c2_atomic_commit (fs : FS) (d : String) (D : Nat)
    (atts : List (List Nat)) (hfs : fs d = none) :
    (∀ s ∈ safeDlTrace d D atts,
      (∃ k, s = Step.write (stagingName d) k) ∨
      s = Step.replace (stagingName d) d) ∧
    (∀ p, p <+: safeDlTrace d D atts →
      Step.replace (stagingName d) d ∉ p →
      applySteps fs p d = none ∧
      ∀ n, n ≠ stagingName d → applySteps fs p n = fs n) ∧
    (∀ p, (p ++ [Step.replace (stagingName d) d]) <+: safeDlTrace d D atts →
      p.getLast? = some (Step.write (stagingName d) D)) := by
  refine ⟨?_, ?_, ?_⟩
  · intro s hs
    rcases safeDlTrace_prefix_shape d D atts _ (List.prefix_refl _) with hall | ⟨w, hw, hwall, _⟩
    · exact Or.inl (hall s hs)
    · rw [hw] at hs
      rcases List.mem_append.mp hs with hs | hs
      · exact Or.inl (hwall s hs)
      · simp only [List.mem_singleton] at hs
        exact Or.inr hs
  · intro p hp hnot
    rcases safeDlTrace_prefix_shape d D atts p hp with hall | ⟨w, rfl, _, _⟩
    · have huntouched := applySteps_writes_only (stagingName d) p fs hall
      exact ⟨(huntouched d (Ne.symm (stagingName_ne d))).trans hfs, huntouched⟩
    · exact absurd (List.mem_append.mpr (Or.inr (List.mem_singleton.mpr rfl))) hnot
  · intro p hp
    rcases safeDlTrace_prefix_shape d D atts _ hp with hall | ⟨w, hw, _, hlast⟩
    · obtain ⟨k, hk⟩ := hall _ (List.mem_append.mpr (Or.inr (List.mem_singleton.mpr rfl)))
      exact Step.noConfusion hk
    · have := List.append_cancel_right hw
      rw [this]
      exact hlast

/-- Witness for `c2_atomic_commit` at a concrete input: declared size 2,
a first attempt that stalls at 1 byte and a second that completes. -/
theorem c2_atomic_commit_witness :
    ((fun _ => none : FS) "f" = none) ∧
    ((applySteps (fun _ => none) [Step.write (stagingName "f") 0] "f" = none) ∧
      (∀ n, n ≠ stagingName "f" →
        applySteps (fun _ => none : FS) [Step.write (stagingName "f") 0] n
          = (fun _ => none : FS) n)) ∧
    ([Step.write (stagingName "f") 0, Step.write (stagingName "f") 1,
        Step.write (stagingName "f") 0, Step.write (stagingName "f") 2].getLast?
      = some (Step.write (stagingName "f") 2)) := by
  have h := c2_atomic_commit (fun _ => none) "f" 2 [[0, 1], [0, 2]] rfl
  refine ⟨rfl, h.2.1 [Step.write (stagingName "f") 0] (by decide) (by decide), ?_⟩
  exact h.2.2 [Step.write (stagingName "f") 0, Step.write (stagingName "f") 1,
    Step.write (stagingName "f") 0, Step.write (stagingName "f") 2] (by decide)

/-- With a non-`None` root, `convert_one` can only raise ValueError. -/
theorem convert_one_some_error (root : String) (x : Option String) (e : PyErr)
    (h : convert_one (some root) x = .error e) : ∃ m, e = PyErr.valueError m := by
  cases x with
  | none => exact Except.noConfusion h
  | some p =>
    rw [convert_one] at h
    by_cases habs : isAbs p
    · rw [if_pos habs] at h
      by_cases hsub : isSubpath p root
      · rw [if_pos hsub] at h
        exact Except.noConfusion h
      · rw [if_neg hsub] at h
        exact ⟨_, (Except.error.inj h).symm⟩
    · rw [if_neg habs] at h
      exact Except.noConfusion h

/-- With a non-`None` root, any error out of `convert_paths` is a
ValueError. -/
theorem convert_paths_some_error (root : String) :
    ∀ (paths : List (Option String)) (e : PyErr),
      convert_paths (some root) paths = .error e → ∃ m, e = PyErr.valueError m := by
  intro paths
  induction paths with
  | nil => intro e h; exact Except.noConfusion h
  | cons x rest ih =>
    intro e h
    rw [convert_paths] at h
    cases hx : convert_one (some root) x with
    | error e' =>
      rw [hx] at h
      exact (Except.error.inj h) ▸ convert_one_some_error root x e' hx
    | ok q =>
      rw [hx] at h
      cases hr : convert_paths (some root) rest with
      | error e' =>
        rw [hr] at h
        exact (Except.error.inj h) ▸ ih e' hr
      | ok qs =>
        rw [hr] at h
        exact Except.noConfusion h

/-- An absolute path outside its root makes `convert_paths` raise. -/
theorem convert_paths_error_of_bad (root : String) :
    ∀ (paths : List (Option String)) (p : String),
      some p ∈ paths → isAbs p = true → isSubpath p root = false →
      ∃ e, convert_paths (some root) paths = .error e := by
  intro paths
  induction paths with
  | nil => intro p hp _ _; exact absurd hp (List.not_mem_nil _)
  | cons x rest ih =>
    intro p hp habs hsub
    rw [convert_paths]
    cases hx : convert_one (some root) x with
    | error e => exact ⟨e, rfl⟩
    | ok q =>
      rcases List.mem_cons.mp hp with rfl | hmem
      · rw [convert_one, if_pos habs, if_neg (by simp [hsub])] at hx
        exact Except.noConfusion hx
      · obtain ⟨e, he⟩ := ih p hmem habs hsub
        rw [he]
        exact ⟨e, rfl⟩

/-- A successful `convert_paths` means every element converted. -/
theorem convert_paths_ok_all (r : Option String) :
    ∀ (paths out : List (Option String)),
      convert_paths r paths = .ok out →
      ∀ x ∈ paths, ∃ q, convert_one r x = .ok q := by
  intro paths
  induction paths with
  | nil => intro out _ x hx; exact absurd hx (List.not_mem_nil _)
  | cons y rest ih =>
    intro out h x hx
    rw [convert_paths] at h
    cases hy : convert_one r y with
    | error e =>
      rw [hy] at h
      exact Except.noConfusion h
    | ok q =>
      rw [hy] at h
      cases hr : convert_paths r rest with
      | error e =>
        rw [hr] at h
        exact Except.noConfusion h
      | ok qs =>
        rcases List.mem_cons.mp hx with rfl | hmem
        · exact ⟨q, hy⟩
        · exact ih qs hr x hmem

/-- With a `None` root, an absolute element makes `convert_paths` raise
TypeError (`Path.relative_to(None)`). -/
theorem convert_paths_none_abs :
    ∀ (paths : List (Option String)) (p : String),
      some p ∈ paths → isAbs p = true →
      ∃ m, convert_paths none paths = .error (.typeError m) := by
  intro paths
  induction paths with
  | nil => intro p hp _; exact absurd hp (List.not_mem_nil _)
  | cons x rest ih =>
    intro p hp habs
    rw [convert_paths]
    rcases List.mem_cons.mp hp with rfl | hmem
    · rw [convert_one, if_pos habs]
      exact ⟨_, rfl⟩
    · cases hx : convert_one none x with
      | error e =>
        cases x with
        | none => exact Except.noConfusion hx
        | some q =>
          rw [convert_one] at hx
          by_cases hq : isAbs q
          · rw [if_pos hq] at hx
            exact ⟨_, by rw [← Except.error.inj hx]⟩
          · rw [if_neg hq] at hx
            exact Except.noConfusion hx
      | ok q =>
        obtain ⟨m, hm⟩ := ih p hmem habs
        rw [hm]
        exact ⟨m, rfl⟩

/-- With a `None` root and only `None`/relative elements, `convert_paths`
succeeds, and the output has a non-`None` element wherever the input
does. -/
theorem convert_paths_none_relative (paths : List (Option String))
    (hrel : ∀ x ∈ paths, ∀ p, x = some p → isAbs p = false) :
    ∃ out, convert_paths none paths = .ok out ∧
      ((∃ x ∈ paths, x ≠ none) → ¬ (out.all (fun f => f = none))) := by
  induction paths with
  | nil =>
    refine ⟨[], rfl, ?_⟩
    rintro ⟨x, hx, _⟩
    exact absurd hx (List.not_mem_nil _)
  | cons x rest ih =>
    obtain ⟨out, hout, hne⟩ := ih (fun y hy => hrel y (List.mem_cons_of_mem _ hy))
    cases x with
    | none =>
      refine ⟨none :: out, ?_, ?_⟩
      · rw [convert_paths, convert_one, hout]
      · rintro ⟨y, hy, hyne⟩
        rcases List.mem_cons.mp hy with rfl | hmem
        · exact absurd rfl hyne
        · intro hall
          rw [List.all_cons] at hall
          exact hne ⟨y, hmem, hyne⟩ (Bool.and_elim_right hall)
    | some p =>
      have habs : isAbs p = false := hrel (some p) (List.mem_cons_self _ _) p rfl
      refine ⟨some (pyFormat none ++ "/" ++ p) :: out, ?_, ?_⟩
      · rw [convert_paths, convert_one, if_neg (by simp [habs]), hout]
      · intro _ hall
        rw [List.all_cons] at hall
        have := Bool.and_elim_left hall
        simp at this

/-- All-`None` input passes `convert_paths` unchanged. -/
theorem convert_paths_all_none (r : Option String) :
    ∀ paths : List (Option String), (∀ x ∈ paths, x = none) →
      convert_paths r paths = .ok paths := by
  intro paths
  induction paths with
  | nil => intro _; rfl
  | cons x rest ih =>
    intro h
    have hx : x = none := h x (List.mem_cons_self _ _)
    subst hx
    rw [convert_paths, convert_one, ih (fun y hy => h y (List.mem_cons_of_mem _ hy))]

/-- Unfolding of `calculate_filenames_for_range` into its three
conversion stages and the final buffer check. -/
theorem calculate_eq (b : Option String) (dd dbd : String) (srcs : List String)
    (bufs locs dbs : List (Option String)) :
    calculate_filenames_for_range b dd dbd srcs bufs locs dbs =
      match convert_paths b bufs with
      | .error e => .error e
      | .ok bufs' =>
        match convert_paths (some dd) locs with
        | .error e => .error e
        | .ok locs' =>
          match convert_paths (some dbd) dbs with
          | .error e => .error e
          | .ok dbs' =>
            if b = none ∧ ¬ (bufs'.all (fun f => f = none)) then
              .error (.valueError "Expected all None for buffer_filenames with buffer_dir=None.")
            else .ok (srcs, bufs', locs', dbs') := by
  rw [calculate_filenames_for_range]
  cases convert_paths b bufs with
  | error e => rfl
  | ok bufs' =>
    cases convert_paths (some dd) locs with
    | error e => rfl
    | ok locs' =>
      cases convert_paths (some dbd) dbs with
      | error e => rfl
      | ok dbs' => rfl

/-- C9 (amended).  Path validation in `calculate_filenames_for_range`:
a `None` element passes through; a relative element is resolved against
its designated root; an absolute element is accepted exactly when it lies
under its designated root and otherwise raises ValueError — and therefore
the whole call raises a ValueError whenever any buffer/local/database
path is absolute and outside its root (with a non-`None` buffer root).
When `buffer_dir` is `None`: an absolute buffer element raises TypeError
(from `Path.relative_to(None)`), any other non-`None` buffer element
leads to the explicit ValueError, and only an all-`None` buffer list
passes. -/
theorem c9_path_validation :
    (∀ root : String, convert_one (some root) none = .ok none) ∧
    (∀ root p : String, isAbs p = false →
      convert_one (some root) (some p) = .ok (some (root ++ "/" ++ p))) ∧
    (∀ root p : String, isAbs p = true → isSubpath p root = true →
      convert_one (some root) (some p) = .ok (some p)) ∧
    (∀ root p : String, isAbs p = true → isSubpath p root = false →
      convert_one (some root) (some p)
        = .error (.valueError "path is not in the subpath of the root")) ∧
    (∀ (bufferRoot dd dbd : String) (srcs : List String)
        (bufs locs dbs : List (Option String)),
      ((∃ p, some p ∈ bufs ∧ isAbs p = true ∧ isSubpath p bufferRoot = false) ∨
        (∃ p, some p ∈ locs ∧ isAbs p = true ∧ isSubpath p dd = false) ∨
        (∃ p, some p ∈ dbs ∧ isAbs p = true ∧ isSubpath p dbd = false)) →
      ∃ m, calculate_filenames_for_range (some bufferRoot) dd dbd srcs bufs locs dbs
        = .error (.valueError m)) ∧
    (∀ (dd dbd : String) (srcs : List String) (bufs locs dbs : List (Option String)),
      (∃ p, some p ∈ bufs ∧ isAbs p = true) →
      ∃ m, calculate_filenames_for_range none dd dbd srcs bufs locs dbs
        = .error (.typeError m)) ∧
    (∀ (dd dbd : String) (srcs : List String)
        (bufs locs dbs locs' dbs' : List (Option String)),
      (∀ x ∈ bufs, ∀ p, x = some p → isAbs p = false) →
      (∃ x ∈ bufs, x ≠ none) →
      convert_paths (some dd) locs = .ok locs' →
      convert_paths (some dbd) dbs = .ok dbs' →
      ∃ m, calculate_filenames_for_range none dd dbd srcs bufs locs dbs
        = .error (.valueError m)) ∧
    (∀ (dd dbd : String) (srcs : List String)
        (bufs locs dbs locs' dbs' : List (Option String)),
      (∀ x ∈ bufs, x = none) →
      convert_paths (some dd) locs = .ok locs' →
      convert_paths (some dbd) dbs = .ok dbs' →
      calculate_filenames_for_range none dd dbd srcs bufs locs dbs
        = .ok (srcs, bufs, locs', dbs')) := by
  refine ⟨fun root => rfl, ?_, ?_, ?_, ?_, ?_, ?_, ?_⟩
  · intro root p h
    simp [convert_one, h, pyFormat]
  · intro root p h1 h2
    simp [convert_one, h1, h2]
  · intro root p h1 h2
    simp [convert_one, h1, h2]
  · intro bufferRoot dd dbd srcs bufs locs dbs hbad
    cases hb : convert_paths (some bufferRoot) bufs with
    | error e =>
      obtain ⟨m, rfl⟩ := convert_paths_some_error _ _ _ hb
      exact ⟨m, by rw [calculate_eq, hb]⟩
    | ok bufs' =>
      cases hl : convert_paths (some dd) locs with
      | error e =>
        obtain ⟨m, rfl⟩ := convert_paths_some_error _ _ _ hl
        exact ⟨m, by rw [calculate_eq, hb, hl]⟩
      | ok locs' =>
        cases hd : convert_paths (some dbd) dbs with
        | error e =>
          obtain ⟨m, rfl⟩ := convert_paths_some_error _ _ _ hd
          exact ⟨m, by rw [calculate_eq, hb, hl, hd]⟩
        | ok dbs' =>
          exfalso
          rcases hbad with ⟨p, hp, habs, hsub⟩ | ⟨p, hp, habs, hsub⟩ | ⟨p, hp, habs, hsub⟩
          · obtain ⟨e, he⟩ := convert_paths_error_of_bad bufferRoot bufs p hp habs hsub
            rw [hb] at he
            exact Except.noConfusion he
          · obtain ⟨e, he⟩ := convert_paths_error_of_bad dd locs p hp habs hsub
            rw [hl] at he
            exact Except.noConfusion he
          · obtain ⟨e, he⟩ := convert_paths_error_of_bad dbd dbs p hp habs hsub
            rw [hd] at he
            exact Except.noConfusion he
  · rintro dd dbd srcs bufs locs dbs ⟨p, hp, habs⟩
    obtain ⟨m, hm⟩ := convert_paths_none_abs bufs p hp habs
    exact ⟨m, by rw [calculate_eq, hm]⟩
  · intro dd dbd srcs bufs locs dbs locs' dbs' hrel hne hl hd
    obtain ⟨out, hout, hnall⟩ := convert_paths_none_relative bufs hrel
    have hcond := hnall hne
    refine ⟨"Expected all None for buffer_filenames with buffer_dir=None.", ?_⟩
    rw [calculate_eq, hout, hl, hd]
    simp [hcond]
  · intro dd dbd srcs bufs locs dbs locs' dbs' hall hl hd
    have hban : (bufs.all fun f => f = none) = true :=
      List.all_eq_true.mpr (fun x hx => by simp [hall x hx])
    rw [calculate_eq, convert_paths_all_none none bufs hall, hl, hd]
    simp [hban]

/-- C9 (counterexample to the claim as stated): with `buffer_dir=None`
and an absolute buffer filename, `calculate_filenames_for_range` raises
TypeError (from `Path(p).relative_to(None)`), not the ValueError the
claim promises for every non-all-`None` buffer list. -/
theorem c9_counterexample :
    calculate_filenames_for_range none "/data" "/db" [] [some "/abs/x"] [] []
      = .error (.typeError "argument should be a str or an os.PathLike object, not NoneType") ∧
    (some "/abs/x" ∈ ([some "/abs/x"] : List (Option String)) ∧
      (some "/abs/x" : Option String) ≠ none) ∧
    (∀ m, calculate_filenames_for_range none "/data" "/db" [] [some "/abs/x"] [] []
      ≠ .error (.valueError m)) := by
  have hres : calculate_filenames_for_range none "/data" "/db" [] [some "/abs/x"] [] []
      = .error (.typeError "argument should be a str or an os.PathLike object, not NoneType") := by
    rw [calculate_eq, show convert_paths none [some "/abs/x"]
      = .error (.typeError "argument should be a str or an os.PathLike object, not NoneType") by
        rw [convert_paths, convert_one, if_pos (by decide)]]
  refine ⟨hres, ⟨List.mem_singleton.mpr rfl, by simp⟩, ?_⟩
  intro m hm
  rw [hres] at hm
  exact PyErr.noConfusion (Except.error.inj hm)

/-- Witness for `c9_path_validation` at concrete inputs. -/
theorem c9_path_validation_witness :
    isAbs "/outside/f" = true ∧ isSubpath "/outside/f" "/data" = false ∧
    (convert_one (some "/data") (some "/outside/f")
      = .error (.valueError "path is not in the subpath of the root")) ∧
    (∃ m, calculate_filenames_for_range (some "/buf") "/data" "/db" []
      [] [some "/outside/f"] [] = .error (.valueError m)) ∧
    isAbs "rel/f" = false ∧
    (convert_one (some "/data") (some "rel/f")
      = .ok (some ("/data" ++ "/" ++ "rel/f"))) :=
  ⟨by decide, by decide,
    c9_path_validation.2.2.2.1 "/data" "/outside/f" (by decide) (by decide),
    c9_path_validation.2.2.2.2.1 "/buf" "/data" "/db" [] [] [some "/outside/f"] []
      (Or.inr (Or.inl ⟨"/outside/f", by decide, by decide, by decide⟩)),
    by decide,
    c9_path_validation.2.1 "/data" "rel/f" (by decide)⟩

/-- `prodCons` multiplies lengths. -/
theorem prodCons_length {α : Type} (xs : List α) (ts : List (List α)) :
    (prodCons xs ts).length = xs.length * ts.length := by
  induction xs with
  | nil => simp [prodCons]
  | cons x xs ih => simp [prodCons, ih, Nat.succ_mul]; omega

/-- The cartesian product has as many tuples as the product of the axis
lengths. -/
theorem pyProduct_length {α : Type} (ls : List (List α)) :
    (pyProduct ls).length = (ls.map List.length).prod := by
  induction ls with
  | nil => rfl
  | cons xs rest ih => simp [pyProduct, prodCons_length, ih]

/-- Mixed-radix indexing into `prodCons`: the head axis is the slow digit
(index `i / ts.length`) and the tail block the fast digit
(index `i % ts.length`). -/
theorem prodCons_getElem? {α : Type} (xs : List α) (ts : List (List α)) :
    ∀ i : Nat, i < xs.length * ts.length →
      (prodCons xs ts)[i]? =
        (xs[i / ts.length]?).bind
          (fun x => (ts[i % ts.length]?).map (fun t => x :: t)) := by
  induction xs with
  | nil => intro i h; simp at h
  | cons x xs ih =>
    intro i h
    by_cases hi : i < ts.length
    · rw [prodCons, List.getElem?_append, if_pos (by simpa using hi),
        List.getElem?_map, Nat.div_eq_of_lt hi, Nat.mod_eq_of_lt hi]
      simp
    · have hle : ts.length ≤ i := Nat.not_lt.mp hi
      have hN : 0 < ts.length := by
        rcases Nat.eq_zero_or_pos ts.length with h0 | h0
        · rw [h0, Nat.mul_zero] at h; omega
        · exact h0
      have hsub : i - ts.length < xs.length * ts.length := by
        rw [List.length_cons, Nat.succ_mul] at h
        omega
      rw [prodCons, List.getElem?_append, if_neg (by simpa using hi),
        List.length_map, ih (i - ts.length) hsub,
        Nat.div_eq_sub_div hN hle, Nat.mod_eq_sub_mod hle,
        List.getElem?_cons_succ]

/-- Python indexing by a nonnegative index. -/
theorem pyIdx_natCast {α : Type} (l : List α) (i : Nat) :
    pyIdx l (i : Int) = l[i]? := by
  simp [pyIdx, List.get?_eq_getElem?]

/-- Python indexing by an in-range negative index counts from the end. -/
theorem pyIdx_neg {α : Type} (l : List α) (i : Int)
    (h1 : -(l.length : Int) ≤ i) (h2 : i < 0) :
    pyIdx l i = pyIdx l ((l.length : Int) + i) := by
  have h0 : 0 ≤ (l.length : Int) + i := by omega
  have h2' : ¬ ((l.length : Int) + i < 0) := by omega
  rw [pyIdx, if_pos h2, if_pos h0, pyIdx, if_neg h2']

/-- `range(start, stop, 1)` is `start, start+1, ...` up to `stop`. -/
theorem pyRangeInt_one (start stop : Int) :
    pyRangeInt start stop 1
      = (List.range (stop - start).toNat).map (fun k : Nat => start + k) := by
  rw [pyRangeInt, if_pos (by omega : (0 : Int) < 1)]
  simp

/-- Length of a step-1 `range`. -/
theorem pyRangeInt_one_length (start stop : Int) :
    (pyRangeInt start stop 1).length = (stop - start).toNat := by
  rw [pyRangeInt_one, List.length_map, List.length_range]

/-- Elements of a step-1 `range`. -/
theorem pyRangeInt_one_getElem? (start stop : Int) (j : Nat) :
    (pyRangeInt start stop 1)[j]? =
      if j < (stop - start).toNat then some (start + j) else none := by
  rw [pyRangeInt_one, List.getElem?_map]
  by_cases hj : j < (stop - start).toNat
  · rw [if_pos hj, List.getElem?_eq_getElem (by simpa using hj), List.getElem_range]
    rfl
  · rw [if_neg hj, List.getElem?_eq_none (by simpa using Nat.le_of_not_lt hj)]
    rfl

/-- C8 (amended).  `ArrayParser` over an ordered axis mapping: the
reported `len` and the materialized product both equal the product of the
axis lengths; combination `i` decomposes mixed-radix style with the first
axis as the slowest digit (so the last axis varies fastest); calling at
an in-range nonnegative index returns the association of axis names with
the `i`-th tuple; an in-range negative index counts from the end, `-1`
giving the last combination; and iteration yields `len` values, the
`i`-th being exactly the (defined) value of `call i`.  Slicing, however,
feeds the raw slice bounds into `range(start, stop, step)` and indexes
`products` with each produced integer: with step 1 and
`0 ≤ start ≤ stop ≤ len` it does yield the corresponding subsequence,
but a negative start `-k` (stop defaulted) yields `len + k` mappings —
the last `k` combinations followed by the entire sequence again — rather
than the final `k`-element subsequence, and a stop beyond `len` produces
`stop` entries, running into IndexError (an undefined entry) at index
`len` instead of clamping. -/
theorem c8_arrayParser {α : Type} (kwargs : List (String × List α)) :
    ((ArrayParser.ofKwargs kwargs).len
        = (kwargs.map (fun q => q.2.length)).prod ∧
      (ArrayParser.ofKwargs kwargs).products.length
        = (kwargs.map (fun q => q.2.length)).prod) ∧
    (∀ (xs : List α) (rest : List (List α)) (i : Nat),
      i < xs.length * (pyProduct rest).length →
      (pyProduct (xs :: rest))[i]? =
        (xs[i / (pyProduct rest).length]?).bind
          (fun x => ((pyProduct rest)[i % (pyProduct rest).length]?).map
            (fun t => x :: t))) ∧
    (∀ i : Nat, i < (kwargs.map (fun q => q.2.length)).prod →
      ∃ t, (ArrayParser.ofKwargs kwargs).products[i]? = some t ∧
        (ArrayParser.ofKwargs kwargs).call (i : Int)
          = some ((ArrayParser.ofKwargs kwargs).keys.zip t)) ∧
    ((∀ i : Int, -((ArrayParser.ofKwargs kwargs).len : Int) ≤ i → i < 0 →
      (ArrayParser.ofKwargs kwargs).call i
        = (ArrayParser.ofKwargs kwargs).call
            (((ArrayParser.ofKwargs kwargs).len : Int) + i)) ∧
      (0 < (ArrayParser.ofKwargs kwargs).len →
        (ArrayParser.ofKwargs kwargs).call (-1)
          = (ArrayParser.ofKwargs kwargs).call
              (((ArrayParser.ofKwargs kwargs).len : Int) - 1))) ∧
    ((∀ a b : Nat, a ≤ b → b ≤ (kwargs.map (fun q => q.2.length)).prod →
      ((ArrayParser.ofKwargs kwargs).sliceGet (some (a : Int)) (some (b : Int))
          (some 1)).length = b - a ∧
      ∀ j : Nat, j < b - a →
        ((ArrayParser.ofKwargs kwargs).sliceGet (some (a : Int)) (some (b : Int))
            (some 1))[j]?
          = some ((ArrayParser.ofKwargs kwargs).call ((a + j : Nat) : Int))) ∧
     (∀ k : Nat, 1 ≤ k → k ≤ (ArrayParser.ofKwargs kwargs).len →
      ((ArrayParser.ofKwargs kwargs).sliceGet (some (-(k : Int))) none none).length
          = (ArrayParser.ofKwargs kwargs).len + k ∧
      (∀ j : Nat, j < k →
        ((ArrayParser.ofKwargs kwargs).sliceGet (some (-(k : Int))) none none)[j]?
          = (ArrayParser.ofKwargs kwargs).iterList[((ArrayParser.ofKwargs kwargs).len
              - k) + j]?) ∧
      (∀ j : Nat, k ≤ j → j < (ArrayParser.ofKwargs kwargs).len + k →
        ((ArrayParser.ofKwargs kwargs).sliceGet (some (-(k : Int))) none none)[j]?
          = (ArrayParser.ofKwargs kwargs).iterList[j - k]?)) ∧
     (∀ b : Nat, (ArrayParser.ofKwargs kwargs).len < b →
      ((ArrayParser.ofKwargs kwargs).sliceGet (some 0) (some (b : Int)) none).length
          = b ∧
      (∀ j : Nat, j < (ArrayParser.ofKwargs kwargs).len →
        ((ArrayParser.ofKwargs kwargs).sliceGet (some 0) (some (b : Int)) none)[j]?
          = some ((ArrayParser.ofKwargs kwargs).call (j : Int))) ∧
      ((ArrayParser.ofKwargs kwargs).sliceGet (some 0) (some (b : Int))
          none)[(ArrayParser.ofKwargs kwargs).len]? = some none)) ∧
    ((ArrayParser.ofKwargs kwargs).iterList.length
        = (kwargs.map (fun q => q.2.length)).prod ∧
      ∀ i : Nat, i < (kwargs.map (fun q => q.2.length)).prod →
        (ArrayParser.ofKwargs kwargs).iterList[i]?
            = some ((ArrayParser.ofKwargs kwargs).call (i : Int)) ∧
          ((ArrayParser.ofKwargs kwargs).call (i : Int)).isSome = true) := by
  have hlen : (ArrayParser.ofKwargs kwargs).products.length
      = (kwargs.map (fun q => q.2.length)).prod := by
    simp [ArrayParser.ofKwargs, pyProduct_length, List.map_map, Function.comp_def]
  have hcall : ∀ i : Nat, (ArrayParser.ofKwargs kwargs).call (i : Int)
      = ((ArrayParser.ofKwargs kwargs).products[i]?).map
          (fun t => (ArrayParser.ofKwargs kwargs).keys.zip t) := by
    intro i
    rw [ArrayParser.call, ArrayParser.unpack, pyIdx_natCast]
  have hpl : (ArrayParser.ofKwargs kwargs).products.length
      = (ArrayParser.ofKwargs kwargs).len := hlen
  have hiter : ∀ m : Nat, m < (ArrayParser.ofKwargs kwargs).len →
      (ArrayParser.ofKwargs kwargs).iterList[m]?
        = some ((ArrayParser.ofKwargs kwargs).unpack (m : Int)) := by
    intro m hm
    have hml : m < (List.range (ArrayParser.ofKwargs kwargs).len).length := by
      rw [List.length_range]
      exact hm
    rw [ArrayParser.iterList, List.getElem?_map, List.getElem?_eq_getElem hml,
      List.getElem_range]
    rfl
  refine ⟨⟨rfl, hlen⟩, ?_, ?_, ⟨?_, ?_⟩, ⟨?_, ?_, ?_⟩, ?_, ?_⟩
  · intro xs rest i h
    exact prodCons_getElem? xs (pyProduct rest) i h
  · intro i h
    have hi : i < (ArrayParser.ofKwargs kwargs).products.length := by omega
    have hsome : ((ArrayParser.ofKwargs kwargs).products[i]?).isSome := by
      rw [List.getElem?_eq_getElem hi]
      rfl
    obtain ⟨t, ht⟩ := Option.isSome_iff_exists.mp hsome
    exact ⟨t, ht, by rw [hcall, ht]; rfl⟩
  · intro i h1 h2
    have hlp : (ArrayParser.ofKwargs kwargs).products.length
        = (ArrayParser.ofKwargs kwargs).len := hlen
    rw [ArrayParser.call, ArrayParser.unpack,
      pyIdx_neg _ i (by rw [hlp]; exact h1) h2, hlp,
      ← ArrayParser.unpack, ← ArrayParser.call]
  · intro hpos
    have hlp : (ArrayParser.ofKwargs kwargs).products.length
        = (ArrayParser.ofKwargs kwargs).len := hlen
    rw [ArrayParser.call, ArrayParser.unpack,
      pyIdx_neg _ (-1) (by rw [hlp]; omega) (by omega), hlp]
    have harith : ((ArrayParser.ofKwargs kwargs).len : Int) + (-1)
        = ((ArrayParser.ofKwargs kwargs).len : Int) - 1 := by ring
    rw [harith, ← ArrayParser.unpack, ← ArrayParser.call]
  · intro a b hab hb
    constructor
    · rw [ArrayParser.sliceGet]
      simp only [Option.getD_some]
      rw [List.length_map, pyRangeInt_one_length]
      omega
    · intro j hj
      rw [ArrayParser.sliceGet]
      simp only [Option.getD_some]
      rw [List.getElem?_map, pyRangeInt_one_getElem?, if_pos (by omega)]
      have harg : (a : Int) + (j : Int) = ((a + j : Nat) : Int) := by omega
      rw [show Option.map (fun i : Int => (ArrayParser.ofKwargs kwargs).unpack i)
            (some ((a : Int) + (j : Int)))
          = some ((ArrayParser.ofKwargs kwargs).unpack ((a : Int) + (j : Int)))
        from rfl, harg]
      rfl
  · intro k hk1 hk2
    have hentry : ∀ j : Nat, j < (ArrayParser.ofKwargs kwargs).len + k →
        ((ArrayParser.ofKwargs kwargs).sliceGet (some (-(k : Int))) none none)[j]?
          = some ((ArrayParser.ofKwargs kwargs).unpack (-(k : Int) + (j : Int))) := by
      intro j hj
      rw [ArrayParser.sliceGet]
      simp only [Option.getD_some, Option.getD_none]
      rw [List.getElem?_map, pyRangeInt_one_getElem?, if_pos (by omega)]
      rfl
    refine ⟨?_, ?_, ?_⟩
    · rw [ArrayParser.sliceGet]
      simp only [Option.getD_some, Option.getD_none]
      rw [List.length_map, pyRangeInt_one_length]
      omega
    · intro j hjk
      rw [hentry j (by omega),
        hiter (((ArrayParser.ofKwargs kwargs).len - k) + j) (by omega),
        ArrayParser.unpack, ArrayParser.unpack,
        pyIdx_neg _ _ (by rw [hpl]; omega : -((ArrayParser.ofKwargs
            kwargs).products.length : Int) ≤ -(k : Int) + (j : Int)) (by omega),
        hpl]
      have harg : ((ArrayParser.ofKwargs kwargs).len : Int) + (-(k : Int) + (j : Int))
          = ((((ArrayParser.ofKwargs kwargs).len - k) + j : Nat) : Int) := by omega
      rw [harg]
    · intro j hjk hj2
      rw [hentry j (by omega), hiter (j - k) (by omega)]
      have harg : -(k : Int) + (j : Int) = ((j - k : Nat) : Int) := by omega
      rw [harg]
  · intro b hbl
    have hentry : ∀ j : Nat, j < b →
        ((ArrayParser.ofKwargs kwargs).sliceGet (some 0) (some (b : Int)) none)[j]?
          = some ((ArrayParser.ofKwargs kwargs).unpack ((0 : Int) + (j : Int))) := by
      intro j hj
      rw [ArrayParser.sliceGet]
      simp only [Option.getD_some, Option.getD_none]
      rw [List.getElem?_map, pyRangeInt_one_getElem?, if_pos (by omega)]
      rfl
    refine ⟨?_, ?_, ?_⟩
    · rw [ArrayParser.sliceGet]
      simp only [Option.getD_some, Option.getD_none]
      rw [List.length_map, pyRangeInt_one_length]
      omega
    · intro j hj
      rw [hentry j (by omega)]
      have harg : (0 : Int) + (j : Int) = ((j : Nat) : Int) := by omega
      rw [harg]
      rfl
    · rw [hentry (ArrayParser.ofKwargs kwargs).len (by omega)]
      have harg : (0 : Int) + ((ArrayParser.ofKwargs kwargs).len : Int)
          = (((ArrayParser.ofKwargs kwargs).len : Nat) : Int) := by omega
      rw [harg, ArrayParser.unpack, pyIdx_natCast,
        List.getElem?_eq_none (by omega)]
      rfl
  · rw [ArrayParser.iterList, List.length_map, List.length_range]
    rfl
  · intro i h
    have hi : i < (ArrayParser.ofKwargs kwargs).products.length := by omega
    have hil : i < (List.range (ArrayParser.ofKwargs kwargs).len).length := by
      rw [List.length_range]
      exact h
    constructor
    · rw [ArrayParser.iterList, List.getElem?_map, List.getElem?_eq_getElem hil,
        List.getElem_range]
      rfl
    · have hsome : ((ArrayParser.ofKwargs kwargs).products[i]?).isSome := by
        rw [List.getElem?_eq_getElem hi]
        rfl
      obtain ⟨t, ht⟩ := Option.isSome_iff_exists.mp hsome
      rw [hcall, ht]
      rfl

/-- Witness for `c8_arrayParser` at the axes of the spec example
(`year` in 2020..2021, two regions, coded 10 and 20). -/
theorem c8_arrayParser_witness :
    ((0 : Nat) < (([("year", [2020, 2021]), ("region", [10, 20])] :
        List (String × List Nat)).map (fun q => q.2.length)).prod) ∧
    (3 : Nat) < (([("year", [2020, 2021]), ("region", [10, 20])] :
        List (String × List Nat)).map (fun q => q.2.length)).prod ∧
    (3 : Nat) < ([2020, 2021] : List Nat).length
        * (pyProduct [[10, 20]]).length ∧
    0 < (ArrayParser.ofKwargs
        ([("year", [2020, 2021]), ("region", [10, 20])] :
          List (String × List Nat))).len ∧
    ((0 : Nat) ≤ 2 ∧ (2 : Nat) ≤ (([("year", [2020, 2021]), ("region", [10, 20])] :
        List (String × List Nat)).map (fun q => q.2.length)).prod) ∧
    ((ArrayParser.ofKwargs
        ([("year", [2020, 2021]), ("region", [10, 20])] :
          List (String × List Nat))).len
      = (([("year", [2020, 2021]), ("region", [10, 20])] :
          List (String × List Nat)).map (fun q => q.2.length)).prod) ∧
    (∃ t, (ArrayParser.ofKwargs
        ([("year", [2020, 2021]), ("region", [10, 20])] :
          List (String × List Nat))).products[3]? = some t ∧
      (ArrayParser.ofKwargs
        ([("year", [2020, 2021]), ("region", [10, 20])] :
          List (String × List Nat))).call ((3 : Nat) : Int)
        = some ((ArrayParser.ofKwargs
            ([("year", [2020, 2021]), ("region", [10, 20])] :
              List (String × List Nat))).keys.zip t)) ∧
    ((pyProduct ([[2020, 2021], [10, 20]] : List (List Nat)))[3]?
      = (([2020, 2021] : List Nat)[3 / (pyProduct [[10, 20]]).length]?).bind
          (fun x => ((pyProduct [[10, 20]])[3 % (pyProduct [[10, 20]]).length]?).map
            (fun t => x :: t))) ∧
    ((ArrayParser.ofKwargs
        ([("year", [2020, 2021]), ("region", [10, 20])] :
          List (String × List Nat))).call (-1)
      = (ArrayParser.ofKwargs
          ([("year", [2020, 2021]), ("region", [10, 20])] :
            List (String × List Nat))).call
            (((ArrayParser.ofKwargs
              ([("year", [2020, 2021]), ("region", [10, 20])] :
                List (String × List Nat))).len : Int) - 1)) ∧
    ((ArrayParser.ofKwargs
        ([("year", [2020, 2021]), ("region", [10, 20])] :
          List (String × List Nat))).sliceGet (some ((0 : Nat) : Int))
        (some ((2 : Nat) : Int)) (some 1)).length = 2 - 0 ∧
    ((1 : Nat) ≤ 1 ∧ (1 : Nat) ≤ (ArrayParser.ofKwargs
        ([("year", [2020, 2021]), ("region", [10, 20])] :
          List (String × List Nat))).len) ∧
    ((ArrayParser.ofKwargs
        ([("year", [2020, 2021]), ("region", [10, 20])] :
          List (String × List Nat))).sliceGet (some (-((1 : Nat) : Int))) none
        none).length
      = (ArrayParser.ofKwargs
          ([("year", [2020, 2021]), ("region", [10, 20])] :
            List (String × List Nat))).len + 1 ∧
    ((ArrayParser.ofKwargs
        ([("year", [2020, 2021]), ("region", [10, 20])] :
          List (String × List Nat))).len < 10) ∧
    ((ArrayParser.ofKwargs
        ([("year", [2020, 2021]), ("region", [10, 20])] :
          List (String × List Nat))).sliceGet (some 0) (some ((10 : Nat) : Int))
        none).length = 10 ∧
    ((ArrayParser.ofKwargs
        ([("year", [2020, 2021]), ("region", [10, 20])] :
          List (String × List Nat))).iterList.length
      = (([("year", [2020, 2021]), ("region", [10, 20])] :
          List (String × List Nat)).map (fun q => q.2.length)).prod) := by
  have h := c8_arrayParser
    ([("year", [2020, 2021]), ("region", [10, 20])] : List (String × List Nat))
  refine ⟨by decide, by decide, by decide, by decide, ⟨by decide, by decide⟩,
    h.1.1, h.2.2.1 3 (by decide), h.2.1 [2020, 2021] [[10, 20]] 3 (by decide),
    h.2.2.2.1.2 (by decide),
    (h.2.2.2.2.1.1 0 2 (by decide) (by decide)).1,
    ⟨by decide, by decide⟩,
    (h.2.2.2.2.1.2.1 1 (by decide) (by decide)).1,
    by decide,
    (h.2.2.2.2.1.2.2 10 (by decide)).1,
    h.2.2.2.2.2.1⟩

/-- C8 (counterexample to the claim as stated): slicing does not yield
the corresponding subsequence of mappings.  On the spec example (4
combinations), the slice `p[-2:]` — start `-2`, stop and step defaulted —
feeds `-2` raw into `range(-2, 4)`, producing 6 mappings (the last two
combinations and then the entire sequence again) instead of the final
2-element subsequence of the iteration order. -/
theorem c8_counterexample :
    ((ArrayParser.ofKwargs ([("year", [2020, 2021]), ("region", [10, 20])] :
        List (String × List Nat))).sliceGet (some (-2)) none none).length = 6 ∧
    ((ArrayParser.ofKwargs ([("year", [2020, 2021]), ("region", [10, 20])] :
        List (String × List Nat))).iterList.drop 2).length = 2 ∧
    (ArrayParser.ofKwargs ([("year", [2020, 2021]), ("region", [10, 20])] :
        List (String × List Nat))).sliceGet (some (-2)) none none
      ≠ (ArrayParser.ofKwargs ([("year", [2020, 2021]), ("region", [10, 20])] :
        List (String × List Nat))).iterList.drop 2 := by
  refine ⟨by decide, by decide, ?_⟩
  intro hcontra
  have hlen6 := congrArg List.length hcontra
  rw [show ((ArrayParser.ofKwargs ([("year", [2020, 2021]), ("region", [10, 20])] :
      List (String × List Nat))).sliceGet (some (-2)) none none).length = 6
    from by decide] at hlen6
  rw [show ((ArrayParser.ofKwargs ([("year", [2020, 2021]), ("region", [10, 20])] :
      List (String × List Nat))).iterList.drop 2).length = 2
    from by decide] at hlen6
  exact absurd hlen6 (by decide)

/-- C7.  `download_files` validates its window parameters up front and
raises `ValueError` on violation: `mode='latest'` demands
`backfill_hours`; `mode='monthly'` demands `year` and `month`, rejects a
month whose start lies after the current time, and clips the window end
with `min(utcnow, end)` so that a returned window never extends past the
current time; `mode='range'` demands `start` and `end` and rejects
`start >= end`, accepting exactly the windows with `start` strictly
before `end`. -/
theorem c7_window_validation (year month backfill : Option Nat)
    (start stop : Option Int) (utcnow : Int) :
    (download_files_window .latest year month none start stop utcnow
      = .error "If mode=latest, arg backfill_hours must be specified.") ∧
    (download_files_window .monthly none month backfill start stop utcnow
      = .error "If mode=monthly, arg year must be specified") ∧
    (∀ y : Nat, download_files_window .monthly (some y) none backfill start stop utcnow
      = .error "If mode=monthly, arg month must be specified") ∧
    (∀ y m : Nat, monthStart y m > utcnow →
      download_files_window .monthly (some y) (some m) backfill start stop utcnow
        = .error "Cannot calculate filenames for future month.") ∧
    (∀ (y m : Nat) (w : Int × Int),
      download_files_window .monthly (some y) (some m) backfill start stop utcnow
          = .ok w →
      w.1 = monthStart y m ∧ w.2 = min utcnow (monthEnd23 y m) ∧ w.2 ≤ utcnow) ∧
    (download_files_window .range year month backfill none stop utcnow
      = .error "If mode=range, arg start must be specified") ∧
    (∀ s : Int, download_files_window .range year month backfill (some s) none utcnow
      = .error "If mode=range, arg end must be specified") ∧
    (∀ s e : Int, s ≥ e →
      download_files_window .range year month backfill (some s) (some e) utcnow
        = .error "start cannot be after end.") ∧
    (∀ s e : Int, s < e →
      download_files_window .range year month backfill (some s) (some e) utcnow
        = .ok (s, e)) := by
  refine ⟨rfl, rfl, fun y => rfl, ?_, ?_, rfl, fun s => rfl, ?_, ?_⟩
  · intro y m h
    simp [download_files_window, calculate_monthly_filenames, h]
  · intro y m w hw
    simp only [download_files_window, calculate_monthly_filenames] at hw
    by_cases hfut : monthStart y m > utcnow
    · simp [hfut] at hw
    · simp only [hfut, if_false] at hw
      simp only [calcRangeWindow] at hw
      by_cases hge : monthStart y m ≥ min utcnow (monthEnd23 y m)
      · simp [hge] at hw
      · simp only [hge, if_false, Except.ok.injEq] at hw
        subst hw
        exact ⟨rfl, rfl, min_le_left _ _⟩
  · intro s e h
    simp [download_files_window, calcRangeWindow, h]
  · intro s e h
    simp [download_files_window, calcRangeWindow]
    omega

/-- Witness for `c7_window_validation` at concrete inputs. -/
theorem c7_window_validation_witness :
    (download_files_window .latest none none none none none 0
      = .error "If mode=latest, arg backfill_hours must be specified.") ∧
    monthStart 1 2 > 0 ∧
    (download_files_window .monthly (some 1) (some 2) none none none 0
      = .error "Cannot calculate filenames for future month.") ∧
    (0 : Int) < 5 ∧
    (download_files_window .range none none none (some 0) (some 5) 0
      = .ok (0, 5)) :=
  ⟨(c7_window_validation none none none none none 0).1,
    by decide,
    (c7_window_validation none none none none none 0).2.2.2.1 1 2 (by decide),
    by decide,
    (c7_window_validation none none none none none 0).2.2.2.2.2.2.2.2 0 5 (by decide)⟩
theorem compress_cons {α : Type} (a : α) (l : List α) (b : Bool) (sel : List Bool) :
    compress (a :: l) (b :: sel) = (if b then [a] else []) ++ compress l sel := by
  cases b <;> simp [compress]

/-- A compressed list has as many elements as the selector has `true`s
(when the selector is not longer than the data). -/
theorem compress_length_count {α : Type} (sel : List Bool) (l : List α)
    (h : sel.length ≤ l.length) : (compress l sel).length = sel.count true := by
  induction sel generalizing l with
  | nil => simp [compress]
  | cons b sel ih =>
    cases l with
    | nil => simp at h
    | cons a l =>
      rw [compress_cons]
      cases b
      · simp [ih l (by simpa using h), List.count_cons]
      · simp [ih l (by simpa using h), List.count_cons]

/-- Compressing equal-length lists by the same selector keeps them at
equal lengths. -/
theorem compress_length_congr {α β : Type} (sel : List Bool) (l : List α)
    (l' : List β) (h : l.length = l'.length) :
    (compress l sel).length = (compress l' sel).length := by
  induction sel generalizing l l' with
  | nil => simp [compress]
  | cons b sel ih =>
    cases l with
    | nil =>
      cases l' with
      | nil => rfl
      | cons a' l' => simp at h
    | cons a l =>
      cases l' with
      | nil => simp at h
      | cons a' l' =>
        rw [compress_cons, compress_cons]
        cases b <;> simp [ih l l' (by simpa using h)]

/-- Compressing the sources by the does-not-exist mask drops exactly the
items whose source filename exists in the item's own database. -/
theorem compress_dne_eq_filter (dbEx : String → String → Bool)
    (srcs dbs : List String) (h : dbs.length = srcs.length) :
    compress srcs ((dbs.zip srcs).map (fun p => !dbEx p.1 p.2))
      = ((srcs.zip dbs).filter (fun p => !dbEx p.2 p.1)).map (fun p => p.1) := by
  induction srcs generalizing dbs with
  | nil => simp [compress]
  | cons s srcs ih =>
    cases dbs with
    | nil => simp at h
    | cons d dbs =>
      rw [List.zip_cons_cons, List.map_cons, compress_cons,
        List.zip_cons_cons, List.filter_cons]
      cases hx : dbEx d s <;>
        simp [ih dbs (by simpa using h), hx]

/-- C4.  The filter stage of `download_files` keeps exactly the candidate
items whose `source_filename` is not yet present (per `sql.exists`, keyed
by `source_filename`) in that item's own per-period database; the logged
count is the number of remaining new items; the parallel lists stay
parallel; and the function returns immediately (flag `sum(dne) == 0`)
precisely when no new item remains — in particular, when every candidate
is already indexed (as after a completed identical run) the filter yields
zero new items and the early return fires. -/
theorem c4_dedup_filter (dbEx : String → String → Bool)
    (srcs bufs locs dbs : List String)
    (hdb : dbs.length = srcs.length) (hbuf : bufs.length = srcs.length)
    (hloc : locs.length = srcs.length) :
    (download_files_filter dbEx srcs bufs locs dbs).1.1
      = ((srcs.zip dbs).filter (fun p => !dbEx p.2 p.1)).map (fun p => p.1) ∧
    (download_files_filter dbEx srcs bufs locs dbs).2.1
      = ((download_files_filter dbEx srcs bufs locs dbs).1.1).length ∧
    ((download_files_filter dbEx srcs bufs locs dbs).1.2.1).length
      = ((download_files_filter dbEx srcs bufs locs dbs).1.1).length ∧
    ((download_files_filter dbEx srcs bufs locs dbs).1.2.2.1).length
      = ((download_files_filter dbEx srcs bufs locs dbs).1.1).length ∧
    ((download_files_filter dbEx srcs bufs locs dbs).1.2.2.2).length
      = ((download_files_filter dbEx srcs bufs locs dbs).1.1).length ∧
    ((download_files_filter dbEx srcs bufs locs dbs).2.2 = true ↔
      (download_files_filter dbEx srcs bufs locs dbs).1.1 = []) ∧
    ((∀ p ∈ srcs.zip dbs, dbEx p.2 p.1 = true) →
      (download_files_filter dbEx srcs bufs locs dbs).2.2 = true ∧
      (download_files_filter dbEx srcs bufs locs dbs).1.1 = []) := by
  have hzlen : ((dbs.zip srcs).map (fun p => !dbEx p.1 p.2)).length = srcs.length := by
    simp [List.length_zip, hdb]
  have hsel : ((dbs.zip srcs).map (fun p => !dbEx p.1 p.2)).length ≤ srcs.length := by
    omega
  have hcount : ((download_files_filter dbEx srcs bufs locs dbs).1.1).length
      = ((dbs.zip srcs).map (fun p => !dbEx p.1 p.2)).count true :=
    compress_length_count _ _ hsel
  refine ⟨compress_dne_eq_filter dbEx srcs dbs hdb, rfl, ?_, ?_, ?_, ?_, ?_⟩
  · exact compress_length_congr _ bufs srcs hbuf
  · exact compress_length_congr _ locs srcs hloc
  · exact compress_length_congr _ dbs srcs hdb
  · constructor
    · intro h
      have : ((dbs.zip srcs).map (fun p => !dbEx p.1 p.2)).count true = 0 := by
        simpa [download_files_filter] using h
      have hlen0 : ((download_files_filter dbEx srcs bufs locs dbs).1.1).length = 0 := by
        omega
      exact List.length_eq_zero.mp hlen0
    · intro h
      have hlen0 : ((download_files_filter dbEx srcs bufs locs dbs).1.1).length = 0 := by
        rw [h]; rfl
      have : ((dbs.zip srcs).map (fun p => !dbEx p.1 p.2)).count true = 0 := by
        omega
      simpa [download_files_filter] using this
  · intro hall
    have hnotmem : true ∉ (dbs.zip srcs).map (fun p => !dbEx p.1 p.2) := by
      intro hmem
      simp only [List.mem_map] at hmem
      obtain ⟨p, hp, hval⟩ := hmem
      have hps : (p.2, p.1) ∈ srcs.zip dbs := by
        rw [← List.zip_swap]
        exact List.mem_map_of_mem Prod.swap hp
      have htrue := hall _ hps
      simp only [] at htrue
      simp [htrue] at hval
    have hcount0 : ((dbs.zip srcs).map (fun p => !dbEx p.1 p.2)).count true = 0 :=
      List.count_eq_zero.mpr hnotmem
    constructor
    · simpa [download_files_filter] using hcount0
    · exact List.length_eq_zero.mp (by omega)

/-- Witness for `c4_dedup_filter` at a concrete input. -/
theorem c4_dedup_filter_witness :
    (["d1", "d2"] : List String).length = (["a", "b"] : List String).length ∧
    (["x", "y"] : List String).length = (["a", "b"] : List String).length ∧
    (["u", "v"] : List String).length = (["a", "b"] : List String).length ∧
    (download_files_filter (fun _ s => s == "a") ["a", "b"] ["x", "y"] ["u", "v"]
        ["d1", "d2"]).1.1
      = (((["a", "b"] : List String).zip ["d1", "d2"]).filter
          (fun p => !(fun _ s => s == "a") p.2 p.1)).map (fun p => p.1) :=
  ⟨rfl, rfl, rfl,
    (c4_dedup_filter (fun _ s => s == "a") ["a", "b"] ["x", "y"] ["u", "v"]
      ["d1", "d2"] rfl rfl rfl).1⟩

/-- C5.  The pooled path resolves the futures zipped with the source
filenames in original submission order; every worker exception is caught
and turned into a log entry carrying that item's source filename; items
whose worker succeeds produce no entry; and the loop always reaches the
end of the list (an error never aborts it: the loop distributes over
list concatenation). -/
theorem c5_pooled_error_isolation (items : List WorkItem) :
    pooled_run items = items.filterMap (fun w =>
      match worker w with
      | .error e => some (errLog w.src e)
      | .ok _ => none) ∧
    (∀ l1 l2 : List (Except String DpiEff × String),
      resolve_loop (l1 ++ l2) = resolve_loop l1 ++ resolve_loop l2) := by
  constructor
  · induction items with
    | nil => rfl
    | cons w rest ih =>
      simp only [pooled_run, List.map_cons, List.zip_cons_cons, List.filterMap_cons] at *
      cases h : worker w with
      | ok v => simpa [resolve_loop, h] using ih
      | error e => simpa [resolve_loop, h] using ih
  · intro l1 l2
    induction l1 with
    | nil => rfl
    | cons p rest ih =>
      obtain ⟨r, src⟩ := p
      cases r <;> simp [resolve_loop, ih]
